import Mathlib

/-!
Verification of the incremental document database of the quench language
backend (`src/db.rs`), as a shallow embedding in Lean.

Machine integers (`u32`, `usize`, `i32`) are modelled as `Nat`/`Int`;
`im::Vector` and `Vec` as `List`; `im::HashSet<Url>` as `Finset Url`;
`Url` as `String`; `Rc<String>` as `String`; salsa inputs as fields of an
explicit `Database` state record.
-/

namespace Quench

/-- A `Url` is an opaque comparable identifier; modelled as a string. -/
abbrev Url := String

/-- Rust `tree_sitter::Point`: a 0-based (row, column) position in the parser's
native addressing. -/
structure Point where
  row : Nat
  column : Nat
deriving DecidableEq, Repr

/-- Rust `lsp::Position`: a 0-based (line, UTF-16 offset) position. -/
structure Position where
  line : Nat
  character : Nat
deriving DecidableEq, Repr

/-- Rust `lsp::Range`: a pair of positions.  (`end` is a Lean keyword, so the
second field is named `endPos`.) -/
structure Range where
  start : Position
  endPos : Position
deriving DecidableEq, Repr

/-- Rust `lsp::DiagnosticSeverity`; only `Error` is used by the database. -/
inductive DiagnosticSeverity where
  | error
deriving DecidableEq, Repr

/-- Rust `lsp::Diagnostic`, restricted to the fields the database populates:
`Diagnostic::new_simple` sets range and message, and `make_diagnostic`
then sets the severity. -/
structure Diagnostic where
  range : Range
  message : String
  severity : Option DiagnosticSeverity
deriving DecidableEq, Repr

/-- Rust `db.rs` `TokenType`: the closed set of semantic token categories, in
declaration (= legend) order. -/
inductive TokenType where
  | Comment
  | String
  | Variable
deriving DecidableEq, Repr

/-- The discriminant of `TokenType` (`token_type as u32` in Rust). -/
def TokenType.toU32 : TokenType → Nat
  | .Comment => 0
  | .String => 1
  | .Variable => 2

/-- Rust `lsp::SemanticToken`: the delta-encoded wire form. -/
structure SemanticToken where
  delta_line : Nat
  delta_start : Nat
  length : Nat
  token_type : Nat
  token_modifiers_bitset : Nat
deriving DecidableEq, Repr

/-- Rust `db.rs` `AbsoluteToken`: a classified token at an absolute position. -/
structure AbsoluteToken where
  line : Nat
  start : Nat
  length : Nat
  token_type : TokenType
deriving DecidableEq, Repr

/-- Modelled from the spec: the repository references a `text::Index`
component (`crate::text`) whose source file is not part of the provided
sources; §4.1 of the spec describes it.  It is a per-snapshot line table
translating the parser's native (row, column) positions into
(line, UTF-16 offset) positions, where a column request past end-of-line
(in particular the `usize::MAX` sentinel used by `AbsoluteToken::via_index`)
saturates to the line's true end-of-line offset.  We model it as the list
of line lengths; the column translation is the saturating identity. -/
structure Index where
  line_lengths : List Nat
deriving DecidableEq, Repr

/-- Modelled from the spec: `text::Index::new(text)` builds the line table
for one document text (one entry per line; empty text yields a one-line
index with an empty extent, since `splitOn` returns `[""]`). -/
def Index.new (text : String) : Index :=
  ⟨(text.splitOn "\n").map String.length⟩

/-- Modelled from the spec: `text::Index::to_lsp` translates a native
(row, column) point to a (line, UTF-16 offset) position, saturating the
column to the row's end-of-line offset. -/
def Index.to_lsp (index : Index) (p : Point) : Position :=
  ⟨p.row, min p.column (index.line_lengths.getD p.row 0)⟩

/-- Rust `usize::MAX`, the sentinel column meaning "end of line". -/
def USIZE_MAX : Nat := 2 ^ 64 - 1

/-- The external parser's view of a syntax tree node (`tree_sitter::Node`):
a kind tag, error/missing flags, a (row, column) span, and children. -/
inductive SNode where
  | mk (kind : String) ( is_error is_missing : Bool)
       (start_position end_position : Point) (children : List SNode)

def SNode.kind : SNode → String
  | .mk k _ _ _ _ _ => k

def SNode.is_error : SNode → Bool
  | .mk _ e _ _ _ _ => e

def SNode.is_missing : SNode → Bool
  | .mk _ _ m _ _ _ => m

def SNode.start_position : SNode → Point
  | .mk _ _ _ s _ _ => s

def SNode.end_position : SNode → Point
  | .mk _ _ _ _ e _ => e

def SNode.children : SNode → List SNode
  | .mk _ _ _ _ _ c => c

/-- Rust `db.rs` `make_diagnostic`: `Diagnostic::new_simple` plus the severity. -/
def make_diagnostic (range : Range) (message : String)
    (severity : DiagnosticSeverity) : Diagnostic :=
  { range := range, message := message, severity := some severity }

mutual

/-- Rust `db.rs` `diagnostics_helper`: an error node yields one "syntax error"
diagnostic on its own span, a missing node one "syntax missing"
diagnostic, and any other node recurses into its children (the `for child
in node.children` loop is `diagnostics_children`). -/
def diagnostics_helper (node : SNode) (index : Index) : List Diagnostic :=
  match node with
  | .mk _ ie im s e cs =>
    match (if ie then some "error" else if im then some "missing" else none) with
    | some message =>
      [make_diagnostic ⟨index.to_lsp s, index.to_lsp e⟩
        ("syntax " ++ message) DiagnosticSeverity.error]
    | none => diagnostics_children cs index

def diagnostics_children (nodes : List SNode) (index : Index) : List Diagnostic :=
  match nodes with
  | [] => []
  | n :: rest => diagnostics_helper n index ++ diagnostics_children rest index

end

/-- The kind classification inlined in `absolute_tokens`'s
`match node.kind()`. -/
def token_type_of_kind : String → Option TokenType
  | "comment" => some TokenType.Comment
  | "string" => some TokenType.String
  | "identifier" => some TokenType.Variable
  | _ => none

/-- Rust `db.rs` `AbsoluteToken::via_index`: converts a native span on one row
into an absolute token, with `none` as the end meaning `usize::MAX`,
which the index saturates to end of line. -/
def AbsoluteToken.via_index (index : Index) (row column : Nat)
    (endColumn : Option Nat) (token_type : TokenType) : AbsoluteToken :=
  let pos := index.to_lsp ⟨row, column⟩
  { line := pos.line
    start := pos.character
    length := (index.to_lsp ⟨row, endColumn.getD USIZE_MAX⟩).character - pos.character
    token_type := token_type }

/-- The `for row in start.row..end.row` loop of `absolute_tokens`, with the
mutable `column` threaded through (it is reset to 0 after the first
iteration); returns the pushed tokens and the final value of `column`. -/
def token_rows (index : Index) (token_type : TokenType) :
    Nat → List Nat → List AbsoluteToken × Nat
  | column, [] => ([], column)
  | column, row :: rest =>
    (AbsoluteToken.via_index index row column none token_type ::
        (token_rows index token_type 0 rest).1,
      (token_rows index token_type 0 rest).2)

mutual

/-- Rust `db.rs` `absolute_tokens`: a node of a classified kind is split into
one token per covered row (all but the last row run to end of line); any
other node recurses into its children. -/
def absolute_tokens (node : SNode) (index : Index) : List AbsoluteToken :=
  match node with
  | .mk kind _ _ s e cs =>
    match token_type_of_kind kind with
    | some token_type =>
      (token_rows index token_type s.column
          (List.range' s.row (e.row - s.row))).1 ++
        [AbsoluteToken.via_index index e.row
          (token_rows index token_type s.column
            (List.range' s.row (e.row - s.row))).2
          (some e.column) token_type]
    | none => absolute_tokens_children cs index

def absolute_tokens_children (nodes : List SNode) (index : Index) :
    List AbsoluteToken :=
  match nodes with
  | [] => []
  | n :: rest => absolute_tokens n index ++ absolute_tokens_children rest index

end

/-- The body of the `for token in it` loop of `make_relative`, with the
mutable `last_line`/`last_start` threaded through. -/
def make_relative_loop (last_line last_start : Nat) :
    List AbsoluteToken → List SemanticToken
  | [] => []
  | token :: rest =>
    { delta_line := token.line - last_line
      delta_start :=
        if token.line = last_line then token.start - last_start else token.start
      length := token.length
      token_type := token.token_type.toU32
      token_modifiers_bitset := 0 }
      :: make_relative_loop token.line token.start rest

/-- Rust `db.rs` `make_relative`: the delta-encoding pass; the first token keeps
its absolute position, every later token is encoded relative to the
previous one. -/
def make_relative : List AbsoluteToken → List SemanticToken
  | [] => []
  | first :: rest =>
    { delta_line := first.line
      delta_start := first.start
      length := first.length
      token_type := first.token_type.toU32
      token_modifiers_bitset := 0 }
      :: make_relative_loop first.line first.start rest

mutual

/-- Spec-side walk for claim C3 ("the pre-order of the contributing
nodes"): the list of nodes at which the diagnostic walk stops, in
pre-order; error/missing nodes are leaves of this walk. -/
def diag_walk (node : SNode) : List SNode :=
  match node with
  | .mk _ ie im _ _ cs =>
    if ie || im then [node] else diag_walk_children cs

def diag_walk_children (nodes : List SNode) : List SNode :=
  match nodes with
  | [] => []
  | n :: rest => diag_walk n ++ diag_walk_children rest

end

/-- The single diagnostic contributed by one error/missing node. -/
def diag_of (index : Index) (node : SNode) : Diagnostic :=
  make_diagnostic
    ⟨index.to_lsp node.start_position, index.to_lsp node.end_position⟩
    ("syntax " ++ (if node.is_error then "error" else "missing"))
    DiagnosticSeverity.error

mutual

/-- Whether a tree contains an error or missing node anywhere. -/
def has_problem (node : SNode) : Bool :=
  match node with
  | .mk _ ie im _ _ cs => ie || im || has_problem_children cs

def has_problem_children (nodes : List SNode) : Bool :=
  match nodes with
  | [] => false
  | n :: rest => has_problem n || has_problem_children rest

end

mutual

/-- Full pre-order (depth-first, left-to-right) traversal of a tree. -/
def preorder (node : SNode) : List SNode :=
  match node with
  | .mk _ _ _ _ _ cs => node :: preorder_children cs

def preorder_children (nodes : List SNode) : List SNode :=
  match nodes with
  | [] => []
  | n :: rest => preorder n ++ preorder_children rest

end

/-- The salsa `Database` of `db.rs`, as an explicit state record: its two
inputs are the open-document set and the per-URI source text. -/
structure Database where
  opened_files : Finset Url
  source_text : Url → String

/-- Rust `Database::default()`: no files open.  (salsa leaves `source_text`
unset; every read of it in `db.rs` is guarded by the open set, so we model
the unset text as the empty string.) -/
def Database.init : Database :=
  { opened_files := ∅, source_text := fun _ => "" }

/-- Rust `set_source_text` (a salsa input setter): pointwise update. -/
def Database.set_source_text (db : Database) (key : Url) (text : String) :
    Database :=
  { db with source_text := fun k => if k = key then text else db.source_text k }

/-- Rust `AlreadyOpenError { uri }`. -/
structure AlreadyOpenError where
  uri : Url
deriving DecidableEq, Repr

/-- Rust `NotYetOpenedError { uri }`. -/
structure NotYetOpenedError where
  uri : Url
deriving DecidableEq, Repr

/-- Rust `EditError`: either a propagated `NotYetOpenedError` or the
incremental-sync rejection carrying the request's uri and version. -/
inductive EditError where
  | notYetOpened (e : NotYetOpenedError)
  | incrementalSync (uri : Url) (version : Int)
deriving DecidableEq, Repr

/-- Rust `Database::open_document`: always writes the text; then inserts the
uri into the open set, reporting `AlreadyOpenError` if it was present
(in which case `set_opened_files` is not called, the set being unchanged
anyway). -/
def Database.open_document (db : Database) (uri : Url) (text : String) :
    Database × Option AlreadyOpenError :=
  let db := db.set_source_text uri text
  let files := db.opened_files
  if uri ∈ files then
    (db, some ⟨uri⟩)
  else
    ({ db with opened_files := insert uri files }, none)

/-- Rust `Database::edit_document`: always writes the text; if the uri was not
open it is added to the open set and `NotYetOpenedError` is reported. -/
def Database.edit_document (db : Database) (uri : Url) (text : String) :
    Database × Option NotYetOpenedError :=
  let db := db.set_source_text uri text
  let files := db.opened_files
  if uri ∉ files then
    ({ db with opened_files := insert uri files }, some ⟨uri⟩)
  else
    (db, none)

/-- Rust `Database::close_document`: always clears the text to the empty
string; then removes the uri from the open set, reporting
`NotYetOpenedError` if it was absent (in which case `set_opened_files` is
not called, the set being unchanged anyway). -/
def Database.close_document (db : Database) (uri : Url) :
    Database × Option NotYetOpenedError :=
  let db := db.set_source_text uri ""
  let files := db.opened_files
  if uri ∉ files then
    (db, some ⟨uri⟩)
  else
    ({ db with opened_files := files.erase uri }, none)

/-- Rust `lsp::TextDocumentContentChangeEvent`. -/
structure TextDocumentContentChangeEvent where
  range : Option Range
  range_length : Option Nat
  text : String
deriving DecidableEq, Repr

/-- Rust `lsp::DidChangeTextDocumentParams`, flattened: the versioned document
identifier (uri, version) plus the change batch. -/
structure DidChangeTextDocumentParams where
  uri : Url
  version : Int
  content_changes : List TextDocumentContentChangeEvent

/-- Rust `<DidChangeTextDocumentParams as Processable>::process`: pops the last
change; if it is a full replacement (no range, no range length) and it was
the only change, performs the edit (propagating `NotYetOpenedError` into
`EditError`); otherwise rejects with `EditError::incrementalSync`. -/
def did_change_process (p : DidChangeTextDocumentParams) (db : Database) :
    Database × Except EditError Unit :=
  match p.content_changes.getLast? with
  | some change =>
    if change.range = none ∧ change.range_length = none ∧
        p.content_changes.dropLast = [] then
      match db.edit_document p.uri change.text with
      | (db2, none) => (db2, Except.ok ())
      | (db2, some e) => (db2, Except.error (EditError.notYetOpened e))
    else
      (db, Except.error (EditError.incrementalSync p.uri p.version))
  | none => (db, Except.error (EditError.incrementalSync p.uri p.version))

/-- The derived query `source_index`: the text index for an open uri,
`none` otherwise. -/
def source_index (db : Database) (key : Url) : Option Index :=
  if key ∈ db.opened_files then
    some (Index.new (db.source_text key))
  else
    none

/-- The derived query `ast`: parses the text of an open uri, `none`
otherwise.  The external parser (`crate::parser`, tree-sitter) is a
parameter of the embedding. -/
def ast (parse : String → SNode) (db : Database) (key : Url) : Option SNode :=
  if key ∈ db.opened_files then
    some (parse (db.source_text key))
  else
    none

/-- The derived query `diagnostics`: the diagnostic walk over the tree
when both the index and the tree exist, the empty list otherwise. -/
def diagnostics (parse : String → SNode) (db : Database) (key : Url) :
    List Diagnostic :=
  match source_index db key, ast parse db key with
  | some index, some tree => diagnostics_helper tree index
  | _, _ => []

/-- The derived query `semantic_tokens`: the delta-encoded token walk when
both the index and the tree exist, the empty list otherwise. -/
def semantic_tokens (parse : String → SNode) (db : Database) (key : Url) :
    List SemanticToken :=
  match source_index db key, ast parse db key with
  | some index, some tree => make_relative (absolute_tokens tree index)
  | _, _ => []

/-- Tree order on absolute tokens: positions are nondecreasing
lexicographically by (line, start). -/
def token_le (a b : AbsoluteToken) : Prop :=
  a.line < b.line ∨ (a.line = b.line ∧ a.start ≤ b.start)

/-- The delta encoding of one token relative to the previous one, written
as the spec states it (for the claim C5 comparison). -/
def relative_token_spec (prev cur : AbsoluteToken) : SemanticToken :=
  { delta_line := cur.line - prev.line
    delta_start :=
      if cur.line = prev.line then cur.start - prev.start else cur.start
    length := cur.length
    token_type := cur.token_type.toU32
    token_modifiers_bitset := 0 }

/-- The whole delta pass, written as the spec states it (for the claim C5
comparison): the first token keeps its absolute position, and each later
token is encoded relative to its predecessor (the predecessor pairing is
`zip ts ts.tail`). -/
def delta_encode_spec : List AbsoluteToken → List SemanticToken
  | [] => []
  | first :: rest =>
    { delta_line := first.line
      delta_start := first.start
      length := first.length
      token_type := first.token_type.toU32
      token_modifiers_bitset := 0 }
      :: (List.zip (first :: rest) rest).map fun p => relative_token_spec p.1 p.2

/-- The end-of-line offset the index assigns to a row. -/
def line_len (index : Index) (row : Nat) : Nat :=
  index.line_lengths.getD row 0

/-! ## Theorems -/

/-- Simultaneous induction over nodes and forests, proved by strong
induction on `sizeOf`. -/
theorem SNode.forest_induction
    (P : SNode → Prop) (Q : List SNode → Prop)
    (hnode : ∀ k ie im s e cs, Q cs → P (SNode.mk k ie im s e cs))
    (hnil : Q [])
    (hcons : ∀ n ns, P n → Q ns → Q (n :: ns)) :
    (∀ n, P n) ∧ (∀ ns, Q ns) := by
  have key : ∀ m : Nat,
      (∀ n : SNode, sizeOf n ≤ m → P n) ∧
      (∀ ns : List SNode, sizeOf ns ≤ m → Q ns) := by
    intro m
    induction m with
    | zero =>
      constructor
      · intro n hn; cases n with
        | mk k ie im s e cs => simp_arith at hn
      · intro ns hns
        cases ns with
        | nil => exact hnil
        | cons n rest => simp_arith at hns
    | succ m ih =>
      constructor
      · intro n hn
        cases n with
        | mk k ie im s e cs =>
          apply hnode
          apply ih.2
          simp_arith at hn
          omega
      · intro ns hns
        cases ns with
        | nil => exact hnil
        | cons n rest =>
          simp_arith at hns
          exact hcons n rest (ih.1 n (by omega)) (ih.2 rest (by omega))
  constructor
  · intro n; exact (key (sizeOf n)).1 n le_rfl
  · intro ns; exact (key (sizeOf ns)).2 ns le_rfl

/-- C6: for every URI `u` and text `T`, `open(u, T)` unconditionally
records `T` as `u`'s source text and leaves `u` a member of the open set;
it returns the `AlreadyOpen` error (carrying `u`) iff `u` was already in
the open set before the call, and success otherwise. -/
theorem open_document_correct (db : Database) (uri : Url) (text : String) :
    ((db.open_document uri text).1).source_text uri = text ∧
    uri ∈ ((db.open_document uri text).1).opened_files ∧
    (db.open_document uri text).2 =
      (if uri ∈ db.opened_files then some ⟨uri⟩ else none) := by
  by_cases h : uri ∈ db.opened_files <;>
    simp [Database.open_document, Database.set_source_text, h]

/-- C7: for every URI `u` and text `T`, a full-text edit `edit(u, T)`
unconditionally records `T` as `u`'s source text and leaves `u` in the
open set (adding it as a corrective side effect if absent); it returns
success iff `u` was already open, and the `NotYetOpened` error (carrying
`u`) otherwise. -/
theorem edit_document_correct (db : Database) (uri : Url) (text : String) :
    ((db.edit_document uri text).1).source_text uri = text ∧
    uri ∈ ((db.edit_document uri text).1).opened_files ∧
    (db.edit_document uri text).2 =
      (if uri ∈ db.opened_files then none else some ⟨uri⟩) := by
  by_cases h : uri ∈ db.opened_files <;>
    simp [Database.edit_document, Database.set_source_text, h]

/-- C8: for every URI `u`, `close(u)` sets `u`'s stored text to the empty
string and removes `u` from the open set (so the final open set is the
erasure of `u`); it returns success iff `u` was open before, the
`NotYetOpened` error otherwise; closing a never-opened URI leaves the
open set as it was, and no other URI's text is touched. -/
theorem close_document_correct (db : Database) (uri : Url) :
    ((db.close_document uri).1).source_text uri = "" ∧
    uri ∉ ((db.close_document uri).1).opened_files ∧
    ((db.close_document uri).1).opened_files = db.opened_files.erase uri ∧
    (db.close_document uri).2 =
      (if uri ∈ db.opened_files then none else some ⟨uri⟩) ∧
    (uri ∉ db.opened_files →
      ((db.close_document uri).1).opened_files = db.opened_files) ∧
    (∀ v, v ≠ uri →
      ((db.close_document uri).1).source_text v = db.source_text v) := by
  by_cases h : uri ∈ db.opened_files <;>
    simp [Database.close_document, Database.set_source_text, h,
      Finset.erase_eq_of_not_mem] <;>
    exact fun v h1 h2 => absurd h2 h1

/-- A closed instance of `close_document_correct`: closing a never-opened
URI on the initial store reports the error and changes no membership. -/
theorem close_document_correct_witness :
    ((Database.init.close_document "file:///a.qn").1).source_text
        "file:///a.qn" = "" ∧
    "file:///a.qn" ∉
      ((Database.init.close_document "file:///a.qn").1).opened_files ∧
    ((Database.init.close_document "file:///a.qn").1).opened_files =
      Database.init.opened_files ∧
    (Database.init.close_document "file:///a.qn").2 = some ⟨"file:///a.qn"⟩ ∧
    ((Database.init.close_document "file:///a.qn").1).source_text
        "file:///b.qn" = Database.init.source_text "file:///b.qn" := by
  have h := close_document_correct Database.init "file:///a.qn"
  have hmem : "file:///a.qn" ∉ Database.init.opened_files := by
    simp [Database.init]
  refine ⟨h.1, h.2.1, h.2.2.2.2.1 hmem, ?_, h.2.2.2.2.2 "file:///b.qn" (by decide)⟩
  rw [h.2.2.2.1, if_neg hmem]

/-- C1: for a URI that is not a member of the open set, the index and
syntax-tree queries return no value and the diagnostics and
semantic-tokens queries return the empty list. -/
theorem closed_uri_queries_absent (parse : String → SNode) (db : Database)
    (key : Url) (h : key ∉ db.opened_files) :
    source_index db key = none ∧
    ast parse db key = none ∧
    diagnostics parse db key = [] ∧
    semantic_tokens parse db key = [] := by
  simp [source_index, ast, diagnostics, semantic_tokens, h]

/-- A closed instance of `closed_uri_queries_absent` on the initial
(empty) store. -/
theorem closed_uri_queries_absent_witness :
    source_index Database.init "file:///a.qn" = none ∧
    ast (fun _ => SNode.mk "source_file" false false ⟨0, 0⟩ ⟨0, 0⟩ [])
      Database.init "file:///a.qn" = none ∧
    diagnostics (fun _ => SNode.mk "source_file" false false ⟨0, 0⟩ ⟨0, 0⟩ [])
      Database.init "file:///a.qn" = [] ∧
    semantic_tokens
      (fun _ => SNode.mk "source_file" false false ⟨0, 0⟩ ⟨0, 0⟩ [])
      Database.init "file:///a.qn" = [] :=
  closed_uri_queries_absent _ Database.init "file:///a.qn"
    (by simp [Database.init])

/-- The four derived queries read only the key's own membership and the
key's own text (helper for C9). -/
lemma derived_queries_local (parse : String → SNode) (db1 db2 : Database)
    (key : Url) (hmem : key ∈ db1.opened_files ↔ key ∈ db2.opened_files)
    (htext : db1.source_text key = db2.source_text key) :
    source_index db1 key = source_index db2 key ∧
    ast parse db1 key = ast parse db2 key ∧
    diagnostics parse db1 key = diagnostics parse db2 key ∧
    semantic_tokens parse db1 key = semantic_tokens parse db2 key := by
  have h1 : source_index db1 key = source_index db2 key := by
    by_cases h : key ∈ db1.opened_files
    · simp [source_index, h, hmem.mp h, htext]
    · have h' : key ∉ db2.opened_files := fun hh => h (hmem.mpr hh)
      simp [source_index, h, h']
  have h2 : ast parse db1 key = ast parse db2 key := by
    by_cases h : key ∈ db1.opened_files
    · simp [ast, h, hmem.mp h, htext]
    · have h' : key ∉ db2.opened_files := fun hh => h (hmem.mpr hh)
      simp [ast, h, h']
  refine ⟨h1, h2, ?_, ?_⟩
  · simp only [diagnostics, h1, h2]
  · simp only [semantic_tokens, h1, h2]

/-- C9: the derived values for a URI are functions only of that URI's
open-set membership and its own source text: two store states agreeing on
those agree on all four derived queries; in particular writing the text of
a different URI never changes this URI's derived values. -/
theorem derived_values_depend_only_on_own_input (parse : String → SNode)
    (db1 db2 : Database) (key : Url)
    (hmem : key ∈ db1.opened_files ↔ key ∈ db2.opened_files)
    (htext : db1.source_text key = db2.source_text key) :
    (source_index db1 key = source_index db2 key ∧
     ast parse db1 key = ast parse db2 key ∧
     diagnostics parse db1 key = diagnostics parse db2 key ∧
     semantic_tokens parse db1 key = semantic_tokens parse db2 key) ∧
    ∀ other text, other ≠ key →
      source_index (db1.set_source_text other text) key =
        source_index db1 key ∧
      ast parse (db1.set_source_text other text) key = ast parse db1 key ∧
      diagnostics parse (db1.set_source_text other text) key =
        diagnostics parse db1 key ∧
      semantic_tokens parse (db1.set_source_text other text) key =
        semantic_tokens parse db1 key := by
  refine ⟨derived_queries_local parse db1 db2 key hmem htext, ?_⟩
  intro other text hne
  exact derived_queries_local parse (db1.set_source_text other text) db1 key
    (by simp only [Database.set_source_text])
    (by simp only [Database.set_source_text]
        rw [if_neg (fun h => hne h.symm)])

/-- A closed instance of `derived_values_depend_only_on_own_input`: two
concrete stores differing only in another URI's text. -/
theorem derived_values_depend_only_on_own_input_witness :
    diagnostics (fun _ => SNode.mk "source_file" false false ⟨0, 0⟩ ⟨0, 0⟩ [])
        { opened_files := {"file:///a.qn"},
          source_text := fun k => if k = "file:///b.qn" then "x" else "" }
        "file:///a.qn" =
      diagnostics (fun _ => SNode.mk "source_file" false false ⟨0, 0⟩ ⟨0, 0⟩ [])
        { opened_files := {"file:///a.qn"}, source_text := fun _ => "" }
        "file:///a.qn" :=
  (derived_values_depend_only_on_own_input _
    { opened_files := {"file:///a.qn"},
      source_text := fun k => if k = "file:///b.qn" then "x" else "" }
    { opened_files := {"file:///a.qn"}, source_text := fun _ => "" }
    "file:///a.qn" Iff.rfl (by decide)).1.2.2.1

/-- A list whose last element is known and whose `dropLast` is empty is
that singleton. -/
lemma eq_singleton_of_getLast?_dropLast {α : Type} {l : List α} {c : α}
    (h1 : l.getLast? = some c) (h2 : l.dropLast = []) : l = [c] := by
  match l with
  | [] => simp at h1
  | [a] => simp at h1; simp [h1]
  | a :: b :: t => simp [List.dropLast] at h2

/-- Classification of `did_change_process` (helper for C2 and C10): the
edit is performed exactly when the batch is one full-replacement change,
and every other batch is rejected with `incrementalSync`, leaving the
store untouched. -/
lemma did_change_classify (p : DidChangeTextDocumentParams) (db : Database) :
    (∀ change, p.content_changes = [change] → change.range = none →
      change.range_length = none →
      did_change_process p db =
        ((db.edit_document p.uri change.text).1,
          match (db.edit_document p.uri change.text).2 with
          | none => Except.ok ()
          | some e => Except.error (EditError.notYetOpened e))) ∧
    ((¬ ∃ change, p.content_changes = [change] ∧ change.range = none ∧
        change.range_length = none) →
      did_change_process p db =
        (db, Except.error (EditError.incrementalSync p.uri p.version))) := by
  constructor
  · intro change hc h1 h2
    unfold did_change_process
    rw [hc]
    simp only [List.getLast?_singleton, List.dropLast_single, h1, h2,
      and_self, and_true, if_true]
    cases hed : db.edit_document p.uri change.text with
    | mk db2 r => cases r <;> simp
  · intro hne
    unfold did_change_process
    split
    next change hl =>
      rw [if_neg]
      rintro ⟨h1, h2, h3⟩
      exact hne ⟨change, eq_singleton_of_getLast?_dropLast hl h3, h1, h2⟩
    next => rfl

/-- C2: any edit request whose batch has more than one change, or contains
a change with a non-null range, is rejected with the `incrementalSync`
error carrying the request's uri and version, and the whole store — in
particular the stored text of that uri — is left unchanged. -/
theorem incremental_sync_rejected (p : DidChangeTextDocumentParams)
    (db : Database)
    (h : 1 < p.content_changes.length ∨
      ∃ c ∈ p.content_changes, c.range ≠ none) :
    did_change_process p db =
      (db, Except.error (EditError.incrementalSync p.uri p.version)) ∧
    ((did_change_process p db).1).source_text p.uri =
      db.source_text p.uri := by
  have herr : did_change_process p db =
      (db, Except.error (EditError.incrementalSync p.uri p.version)) := by
    apply (did_change_classify p db).2
    rintro ⟨change, hc, h1, h2⟩
    rcases h with hlen | ⟨c, hcmem, hcr⟩
    · rw [hc] at hlen; simp at hlen
    · rw [hc] at hcmem
      simp only [List.mem_singleton] at hcmem
      exact hcr (hcmem ▸ h1)
  exact ⟨herr, by rw [herr]⟩

/-- A closed instance of `incremental_sync_rejected`: a two-change batch
and a ranged single change are both rejected without a write. -/
theorem incremental_sync_rejected_witness :
    (did_change_process
        ⟨"file:///a.qn", 2,
          [⟨none, none, "x"⟩, ⟨none, none, "y"⟩]⟩ Database.init =
      (Database.init,
        Except.error (EditError.incrementalSync "file:///a.qn" 2))) ∧
    (did_change_process
        ⟨"file:///a.qn", 3,
          [⟨some ⟨⟨0, 0⟩, ⟨0, 3⟩⟩, none, "z"⟩]⟩ Database.init =
      (Database.init,
        Except.error (EditError.incrementalSync "file:///a.qn" 3))) :=
  ⟨(incremental_sync_rejected
      ⟨"file:///a.qn", 2, [⟨none, none, "x"⟩, ⟨none, none, "y"⟩]⟩
      Database.init (Or.inl (by decide))).1,
   (incremental_sync_rejected
      ⟨"file:///a.qn", 3, [⟨some ⟨⟨0, 0⟩, ⟨0, 3⟩⟩, none, "z"⟩]⟩
      Database.init
      (Or.inr ⟨⟨some ⟨⟨0, 0⟩, ⟨0, 3⟩⟩, none, "z"⟩, by decide, by decide⟩)).1⟩

/-- C10: an edit request proceeds to the text write iff its batch is
exactly one change whose range and range-length are both null; in
particular an empty batch, and a single change with a null range but a
non-null range-length, are rejected with `incrementalSync` and leave the
store (hence the stored text) unchanged. -/
theorem full_replacement_gate (p : DidChangeTextDocumentParams)
    (db : Database) :
    (∀ change, p.content_changes = [change] → change.range = none →
      change.range_length = none →
      did_change_process p db =
        ((db.edit_document p.uri change.text).1,
          match (db.edit_document p.uri change.text).2 with
          | none => Except.ok ()
          | some e => Except.error (EditError.notYetOpened e))) ∧
    (p.content_changes = [] →
      did_change_process p db =
        (db, Except.error (EditError.incrementalSync p.uri p.version))) ∧
    (∀ change, p.content_changes = [change] → change.range = none →
      change.range_length ≠ none →
      did_change_process p db =
        (db, Except.error (EditError.incrementalSync p.uri p.version))) ∧
    ((¬ ∃ change, p.content_changes = [change] ∧ change.range = none ∧
        change.range_length = none) →
      did_change_process p db =
        (db, Except.error (EditError.incrementalSync p.uri p.version))) := by
  refine ⟨(did_change_classify p db).1, ?_, ?_, (did_change_classify p db).2⟩
  · intro hnil
    apply (did_change_classify p db).2
    rintro ⟨change, hc, -, -⟩
    rw [hnil] at hc
    exact List.noConfusion hc
  · intro change hc h1 h2
    apply (did_change_classify p db).2
    rintro ⟨change', hc', -, h2'⟩
    rw [hc] at hc'
    injection hc' with he _
    exact h2 (he ▸ h2')

/-- A closed instance of `full_replacement_gate`: the write case, the
empty-batch case and the non-null range-length case on concrete inputs. -/
theorem full_replacement_gate_witness :
    (did_change_process ⟨"file:///a.qn", 2, [⟨none, none, "new"⟩]⟩
        Database.init =
      ((Database.init.edit_document "file:///a.qn" "new").1,
        Except.error (EditError.notYetOpened ⟨"file:///a.qn"⟩))) ∧
    (did_change_process ⟨"file:///a.qn", 2, []⟩ Database.init =
      (Database.init,
        Except.error (EditError.incrementalSync "file:///a.qn" 2))) ∧
    (did_change_process ⟨"file:///a.qn", 2, [⟨none, some 3, "new"⟩]⟩
        Database.init =
      (Database.init,
        Except.error (EditError.incrementalSync "file:///a.qn" 2))) := by
  refine ⟨?_, ?_, ?_⟩
  · have h := (full_replacement_gate
      ⟨"file:///a.qn", 2, [⟨none, none, "new"⟩]⟩ Database.init).1
      ⟨none, none, "new"⟩ rfl rfl rfl
    rw [h]
    simp [Database.edit_document, Database.set_source_text, Database.init]
  · exact (full_replacement_gate ⟨"file:///a.qn", 2, []⟩ Database.init).2.1 rfl
  · exact (full_replacement_gate
      ⟨"file:///a.qn", 2, [⟨none, some 3, "new"⟩]⟩ Database.init).2.2.1
      ⟨none, some 3, "new"⟩ rfl rfl (by decide)

/-- The loop of `make_relative` computes the zip-with-predecessor map. -/
lemma make_relative_loop_eq_spec :
    ∀ (rest : List AbsoluteToken) (a : AbsoluteToken),
      make_relative_loop a.line a.start rest =
        (List.zip (a :: rest) rest).map fun p => relative_token_spec p.1 p.2 := by
  intro rest
  induction rest with
  | nil => intro a; rfl
  | cons t ts ih =>
    intro a
    simp only [make_relative_loop, List.zip_cons_cons, List.map_cons, ih t]
    rfl

/-- Adjacent pairs of a `Chain'` list appear in `zip ts ts.tail`. -/
lemma chain'_zip_tail {α : Type} {R : α → α → Prop} :
    ∀ {ts : List α}, List.Chain' R ts →
      ∀ p ∈ List.zip ts ts.tail, R p.1 p.2 := by
  intro ts
  induction ts with
  | nil => intro _ p hp; simp at hp
  | cons a rest ih =>
    intro hchain p hp
    cases rest with
    | nil => simp at hp
    | cons b t =>
      rw [List.chain'_cons] at hchain
      simp only [List.tail_cons, List.zip_cons_cons, List.mem_cons] at hp
      rcases hp with rfl | hp
      · exact hchain.1
      · exact ih hchain.2 p hp

/-- C5: the delta pass maps the empty list to the empty list, emits the
first token with its own absolute line and column, and encodes every
subsequent token relative to its predecessor exactly as
`relative_token_spec` states; under the tree-order (nondecreasing)
hypothesis the truncated subtractions are exact, i.e. adding the emitted
delta to the predecessor's position recovers the token's position. -/
theorem make_relative_correct (ts : List AbsoluteToken)
    (hchain : List.Chain' token_le ts) :
    make_relative [] = [] ∧
    make_relative ts = delta_encode_spec ts ∧
    ∀ p ∈ List.zip ts ts.tail,
      p.1.line + (relative_token_spec p.1 p.2).delta_line = p.2.line ∧
      (p.2.line = p.1.line →
        p.1.start + (relative_token_spec p.1 p.2).delta_start = p.2.start) ∧
      (p.2.line ≠ p.1.line →
        (relative_token_spec p.1 p.2).delta_start = p.2.start) := by
  refine ⟨rfl, ?_, ?_⟩
  · cases ts with
    | nil => rfl
    | cons first rest =>
      simp only [make_relative, delta_encode_spec,
        make_relative_loop_eq_spec rest first]
  · intro p hp
    have hle := chain'_zip_tail hchain p hp
    rcases hle with hlt | ⟨heq, hst⟩
    · refine ⟨by simp [relative_token_spec]; omega, ?_, ?_⟩
      · intro h; omega
      · intro hne'
        simp only [relative_token_spec]
        rw [if_neg hne']
    · refine ⟨by simp [relative_token_spec]; omega, ?_, ?_⟩
      · intro h; simp [relative_token_spec, h]; omega
      · intro h; exact absurd heq.symm h

/-- A closed instance of `make_relative_correct` on a three-token list,
matching the hello-world token test of `db.rs`. -/
theorem make_relative_correct_witness :
    make_relative
        [⟨0, 0, 21, TokenType.Comment⟩, ⟨2, 0, 5, TokenType.Variable⟩,
          ⟨2, 6, 15, TokenType.String⟩] =
      delta_encode_spec
        [⟨0, 0, 21, TokenType.Comment⟩, ⟨2, 0, 5, TokenType.Variable⟩,
          ⟨2, 6, 15, TokenType.String⟩] ∧
    make_relative
        [⟨0, 0, 21, TokenType.Comment⟩, ⟨2, 0, 5, TokenType.Variable⟩,
          ⟨2, 6, 15, TokenType.String⟩] =
      [⟨0, 0, 21, 0, 0⟩, ⟨2, 0, 5, 2, 0⟩, ⟨0, 6, 15, 1, 0⟩] :=
  ⟨(make_relative_correct
      [⟨0, 0, 21, TokenType.Comment⟩, ⟨2, 0, 5, TokenType.Variable⟩,
        ⟨2, 6, 15, TokenType.String⟩]
      (by simp [List.chain'_cons, token_le])).2.1,
   by rfl⟩

/-- The diagnostic walk of `db.rs` equals the map of `diag_of` over the
contributing nodes (helper for C3). -/
lemma diagnostics_eq_walk :
    (∀ n : SNode, ∀ index : Index,
      diagnostics_helper n index = (diag_walk n).map (diag_of index)) ∧
    (∀ ns : List SNode, ∀ index : Index,
      diagnostics_children ns index =
        (diag_walk_children ns).map (diag_of index)) := by
  refine SNode.forest_induction
    (fun n => ∀ index : Index,
      diagnostics_helper n index = (diag_walk n).map (diag_of index))
    (fun ns => ∀ index : Index,
      diagnostics_children ns index =
        (diag_walk_children ns).map (diag_of index)) ?_ ?_ ?_
  · intro k ie im s e cs ih index
    cases ie <;> cases im <;>
      simp [diagnostics_helper, diag_walk, diag_of, SNode.is_error,
        SNode.is_missing, SNode.start_position, SNode.end_position, ih index]
  · intro index; rfl
  · intro n ns ihn ihns index
    simp [diagnostics_children, diag_walk_children, ihn index, ihns index]

/-- The diagnostic list is empty exactly when the tree has no error or
missing node (helper for C3). -/
lemma diagnostics_empty_iff :
    (∀ n : SNode, ∀ index : Index,
      (diagnostics_helper n index = [] ↔ has_problem n = false)) ∧
    (∀ ns : List SNode, ∀ index : Index,
      (diagnostics_children ns index = [] ↔
        has_problem_children ns = false)) := by
  refine SNode.forest_induction
    (fun n => ∀ index : Index,
      (diagnostics_helper n index = [] ↔ has_problem n = false))
    (fun ns => ∀ index : Index,
      (diagnostics_children ns index = [] ↔
        has_problem_children ns = false)) ?_ ?_ ?_
  · intro k ie im s e cs ih index
    cases ie <;> cases im <;>
      simp [diagnostics_helper, has_problem, ih index]
  · intro index
    simp [diagnostics_children, has_problem_children]
  · intro n ns ihn ihns index
    simp [diagnostics_children, has_problem_children, ihn index, ihns index]

/-- The contributing nodes appear in full pre-order (helper for C3). -/
lemma diag_walk_sublist :
    (∀ n : SNode, (diag_walk n).Sublist (preorder n)) ∧
    (∀ ns : List SNode,
      (diag_walk_children ns).Sublist (preorder_children ns)) := by
  refine SNode.forest_induction
    (fun n => (diag_walk n).Sublist (preorder n))
    (fun ns => (diag_walk_children ns).Sublist (preorder_children ns))
    ?_ ?_ ?_
  · intro k ie im s e cs ih
    cases ie <;> cases im <;> simp only [diag_walk, preorder] <;>
      first
        | exact (List.nil_sublist _).cons₂ _
        | exact ih.cons _
  · exact List.Sublist.refl []
  · intro n ns ihn ihns
    simp only [diag_walk_children, preorder_children]
    exact ihn.append ihns

/-- C3: the diagnostics extractor is the pre-order walk that stops at the
first error/missing node on each path: it equals the map of the
single-diagnostic constructor `diag_of` (message "syntax error" for an
error node, "syntax missing" for a missing node, each on the node's own
span) over the contributing nodes `diag_walk`; the output is empty iff
the tree contains no error or missing node; and the contributing nodes
are listed in (a subsequence of) full pre-order. -/
theorem diagnostics_helper_correct (node : SNode) (index : Index) :
    diagnostics_helper node index = (diag_walk node).map (diag_of index) ∧
    (diagnostics_helper node index = [] ↔ has_problem node = false) ∧
    (diag_walk node).Sublist (preorder node) :=
  ⟨diagnostics_eq_walk.1 node index, diagnostics_empty_iff.1 node index,
   diag_walk_sublist.1 node⟩

/-- A closed instance of `diagnostics_helper_correct` on the tree shape of
the `test_diagnostics_hello_world` test: an error node and a missing node
under the root yield exactly the "syntax error" and "syntax missing"
diagnostics on their own spans, in pre-order. -/
theorem diagnostics_helper_correct_witness :
    diagnostics_helper
        (SNode.mk "source_file" false false ⟨0, 0⟩ ⟨0, 24⟩
          [SNode.mk "ERROR" true false ⟨0, 6⟩ ⟨0, 14⟩
            [SNode.mk "string" false false ⟨0, 6⟩ ⟨0, 14⟩ []],
           SNode.mk "quote" false true ⟨0, 24⟩ ⟨0, 24⟩ []])
        ⟨[25]⟩ =
      (diag_walk
        (SNode.mk "source_file" false false ⟨0, 0⟩ ⟨0, 24⟩
          [SNode.mk "ERROR" true false ⟨0, 6⟩ ⟨0, 14⟩
            [SNode.mk "string" false false ⟨0, 6⟩ ⟨0, 14⟩ []],
           SNode.mk "quote" false true ⟨0, 24⟩ ⟨0, 24⟩ []])).map
        (diag_of ⟨[25]⟩) ∧
    diagnostics_helper
        (SNode.mk "source_file" false false ⟨0, 0⟩ ⟨0, 24⟩
          [SNode.mk "ERROR" true false ⟨0, 6⟩ ⟨0, 14⟩
            [SNode.mk "string" false false ⟨0, 6⟩ ⟨0, 14⟩ []],
           SNode.mk "quote" false true ⟨0, 24⟩ ⟨0, 24⟩ []])
        ⟨[25]⟩ =
      [make_diagnostic ⟨⟨0, 6⟩, ⟨0, 14⟩⟩ "syntax error"
        DiagnosticSeverity.error,
       make_diagnostic ⟨⟨0, 24⟩, ⟨0, 24⟩⟩ "syntax missing"
        DiagnosticSeverity.error] :=
  ⟨(diagnostics_helper_correct
      (SNode.mk "source_file" false false ⟨0, 0⟩ ⟨0, 24⟩
        [SNode.mk "ERROR" true false ⟨0, 6⟩ ⟨0, 14⟩
          [SNode.mk "string" false false ⟨0, 6⟩ ⟨0, 14⟩ []],
         SNode.mk "quote" false true ⟨0, 24⟩ ⟨0, 24⟩ []])
      ⟨[25]⟩).1,
   by rfl⟩

/-- Every row's end-of-line offset is bounded by `usize::MAX` when every
stored line length is (helper for C4). -/
lemma line_len_le_max {index : Index}
    (hbound : ∀ len ∈ index.line_lengths, len ≤ USIZE_MAX) (row : Nat) :
    line_len index row ≤ USIZE_MAX := by
  unfold line_len
  rw [List.getD_eq_getElem?_getD]
  by_cases h : row < index.line_lengths.length
  · rw [List.getElem?_eq_getElem h]
    exact hbound _ (List.getElem_mem h)
  · rw [List.getElem?_eq_none (by omega)]
    exact Nat.zero_le _

/-- A `via_index` call with the unbounded end yields a token running from
the given column to end of line (helper for C4). -/
lemma via_index_unbounded {index : Index}
    (hbound : ∀ len ∈ index.line_lengths, len ≤ USIZE_MAX)
    (row column : Nat) (tt : TokenType)
    (hcol : column ≤ line_len index row) :
    AbsoluteToken.via_index index row column none tt =
      ⟨row, column, line_len index row - column, tt⟩ := by
  have hmax := line_len_le_max hbound row
  simp only [AbsoluteToken.via_index, Index.to_lsp, Option.getD]
  have h1 : min column (index.line_lengths.getD row 0) = column :=
    Nat.min_eq_left hcol
  have h2 : min USIZE_MAX (index.line_lengths.getD row 0) =
      line_len index row := Nat.min_eq_right hmax
  simp only [line_len] at *
  rw [h1, h2]

/-- A `via_index` call with an explicit in-range end yields a token
running from the given column to that end (helper for C4). -/
lemma via_index_bounded {index : Index} (row column endC : Nat)
    (tt : TokenType) (hcol : column ≤ endC)
    (hend : endC ≤ line_len index row) :
    AbsoluteToken.via_index index row column (some endC) tt =
      ⟨row, column, endC - column, tt⟩ := by
  simp only [AbsoluteToken.via_index, Index.to_lsp, Option.getD]
  have h1 : min column (index.line_lengths.getD row 0) = column :=
    Nat.min_eq_left (le_trans hcol hend)
  have h2 : min endC (index.line_lengths.getD row 0) = endC :=
    Nat.min_eq_left hend
  simp only [line_len] at *
  rw [h1, h2]

/-- Closed form of the row loop: the first row keeps the incoming column,
later rows start at column 0, and the final column is 0 unless the loop
was empty (helper for C4). -/
lemma token_rows_eq (index : Index) (tt : TokenType) :
    ∀ (rows : List Nat) (column : Nat),
      token_rows index tt column rows =
        (match rows with
         | [] => ([], column)
         | r :: rest =>
           (AbsoluteToken.via_index index r column none tt ::
              rest.map (fun row => AbsoluteToken.via_index index row 0 none tt),
             0)) := by
  intro rows
  induction rows with
  | nil => intro column; rfl
  | cons r rest ih =>
    intro column
    simp only [token_rows, ih 0]
    cases rest with
    | nil => rfl
    | cons r' rest' => rfl

/-- C4: a classified node whose span starts at (r0, c0) and ends at
(r1, c1) on a later row is split by `absolute_tokens` into one token per
covered line — the first from c0 to end of line, intermediate lines from
column 0 to end of line, the last from column 0 to c1 — r1 − r0 + 1
tokens in all; a single-line classified span yields exactly one token
from its start column to its true end column.  (Columns are assumed
in-range per the parser contract, and line lengths fit in `usize`.) -/
theorem absolute_tokens_line_split (index : Index) (tt : TokenType)
    (kind : String) (ie im : Bool) (r0 c0 r1 c1 : Nat) (cs : List SNode)
    (hk : token_type_of_kind kind = some tt)
    (hbound : ∀ len ∈ index.line_lengths, len ≤ USIZE_MAX) :
    (r0 < r1 → c0 ≤ line_len index r0 → c1 ≤ line_len index r1 →
      absolute_tokens (SNode.mk kind ie im ⟨r0, c0⟩ ⟨r1, c1⟩ cs) index =
        ⟨r0, c0, line_len index r0 - c0, tt⟩ ::
          ((List.range' (r0 + 1) (r1 - (r0 + 1))).map
            fun r => ⟨r, 0, line_len index r, tt⟩) ++
          [⟨r1, 0, c1, tt⟩] ∧
      (absolute_tokens (SNode.mk kind ie im ⟨r0, c0⟩ ⟨r1, c1⟩ cs)
        index).length = r1 - r0 + 1) ∧
    (r0 = r1 → c0 ≤ c1 → c1 ≤ line_len index r1 →
      absolute_tokens (SNode.mk kind ie im ⟨r0, c0⟩ ⟨r1, c1⟩ cs) index =
        [⟨r0, c0, c1 - c0, tt⟩]) := by
  constructor
  · intro hr hc0 hc1
    have hsplit : List.range' r0 (r1 - r0) =
        r0 :: List.range' (r0 + 1) (r1 - (r0 + 1)) := by
      have : r1 - r0 = (r1 - (r0 + 1)) + 1 := by omega
      rw [this, List.range'_succ]
    have heq : absolute_tokens (SNode.mk kind ie im ⟨r0, c0⟩ ⟨r1, c1⟩ cs)
        index =
        ⟨r0, c0, line_len index r0 - c0, tt⟩ ::
          ((List.range' (r0 + 1) (r1 - (r0 + 1))).map
            fun r => ⟨r, 0, line_len index r, tt⟩) ++
          [⟨r1, 0, c1, tt⟩] := by
      simp only [absolute_tokens, hk, hsplit, token_rows_eq index tt]
      rw [via_index_unbounded hbound r0 c0 tt hc0,
        via_index_bounded r1 0 c1 tt (Nat.zero_le c1) hc1,
        List.map_congr_left
          (fun r _ => via_index_unbounded hbound r 0 tt (Nat.zero_le _))]
      simp
    refine ⟨heq, ?_⟩
    rw [heq]
    simp only [List.cons_append, List.length_cons, List.length_append,
      List.length_map, List.length_range', List.length_singleton,
      List.length_nil]
    omega
  · intro hr hc0 hc1
    subst hr
    simp only [absolute_tokens, hk, Nat.sub_self, List.range'_zero,
      token_rows_eq index tt]
    rw [via_index_bounded r0 c0 c1 tt hc0 hc1]
    rfl

/-- A closed instance of `absolute_tokens_line_split`: the three-line
string of the `test_tokens_multiline` test (one token per covered line)
and a one-line identifier (one token). -/
theorem absolute_tokens_line_split_witness :
    absolute_tokens (SNode.mk "string" false false ⟨0, 6⟩ ⟨2, 6⟩ [])
        ⟨[16, 21, 8]⟩ =
      [⟨0, 6, 10, TokenType.String⟩, ⟨1, 0, 21, TokenType.String⟩,
        ⟨2, 0, 6, TokenType.String⟩] ∧
    absolute_tokens (SNode.mk "identifier" false false ⟨0, 0⟩ ⟨0, 5⟩ [])
        ⟨[16, 21, 8]⟩ =
      [⟨0, 0, 5, TokenType.Variable⟩] := by
  constructor
  · have h := ((absolute_tokens_line_split ⟨[16, 21, 8]⟩ TokenType.String
      "string" false false 0 6 2 6 [] rfl (by decide)).1
      (by decide) (by decide) (by decide)).1
    rw [h]; rfl
  · exact (absolute_tokens_line_split ⟨[16, 21, 8]⟩ TokenType.Variable
      "identifier" false false 0 0 0 5 [] rfl (by decide)).2
      rfl (by decide) (by decide)

end Quench
